import Mathlib

/-!
Verification of the hypergraph-lifting code shared by the two training
notebooks (UniSAGE and UniGCNII).  The authored logic is:

* collect, for each node, its one-hop neighborhood from the dataset edge
  list (`data.edge_index[1, data.edge_index[0] == node]`);
* sort each neighborhood and keep one copy of each distinct sorted tuple
  (first occurrence wins), producing `hyperedges`;
* build a dense 0/1 incidence matrix of shape `numNodes × len(hyperedges)`
  by writing `1` at `(row, col)` for each `row` in hyperedge `col`;
* assert that every column sum and every row sum is positive;
* run a fixed-epoch training loop that evaluates when the epoch counter is
  divisible by the test interval.

Edge lists are modelled as `List (Nat × Nat)` of (source, target) pairs in
order, matching the columns of `edge_index`.  The incidence matrix is
modelled as a function `Nat → Nat → Nat` built by the same sequence of
writes as the numpy code.
-/

namespace HypergraphLift

/-- `data.edge_index[1, data.edge_index[0] == node]`: the targets, in edge
order, of the edges whose source is `node`. -/
def neighbors (E : List (Nat × Nat)) (node : Nat) : List Nat :=
  (E.filter (fun e => e.1 == node)).map (fun e => e.2)

/-- The loop `for node in range(data.num_nodes): ... one_hop_neighborhoods.append(...)`. -/
def one_hop_neighborhoods (E : List (Nat × Nat)) (numNodes : Nat) : List (List Nat) :=
  (List.range numNodes).map (fun node => neighbors E node)

/-- Python's `sorted` on a list of node indices: ascending order. -/
def sortNat (l : List Nat) : List Nat :=
  List.insertionSort (· ≤ ·) l

/-- The dedup loop: `for neighborhood in one_hop_neighborhoods: neighborhood =
tuple(sorted(neighborhood)); if neighborhood not in unique_hyperedges:
hyperedges.append(list(neighborhood)); unique_hyperedges.add(neighborhood)`.
The first argument is the `unique_hyperedges` set (as a list of the tuples
added so far); the result is the `hyperedges` list built by the remaining
iterations. -/
def dedupHyperedges : List (List Nat) → List (List Nat) → List (List Nat)
  | _, [] => []
  | unique_hyperedges, neighborhood :: rest =>
    let t := sortNat neighborhood
    if t ∈ unique_hyperedges then dedupHyperedges unique_hyperedges rest
    else t :: dedupHyperedges (t :: unique_hyperedges) rest

/-- The `hyperedges` list produced by the notebook for an edge list over
`numNodes` nodes. -/
def hyperedges (E : List (Nat × Nat)) (numNodes : Nat) : List (List Nat) :=
  dedupHyperedges [] (one_hop_neighborhoods E numNodes)

/-- `max_edges = len(hyperedges)`. -/
def max_edges (E : List (Nat × Nat)) (numNodes : Nat) : Nat :=
  (hyperedges E numNodes).length

/-- Shape of `np.zeros((x_0s.shape[0], max_edges))`: rows = node count,
columns = `max_edges`. -/
def incidenceShape (numNodes : Nat) (E : List (Nat × Nat)) : Nat × Nat :=
  (numNodes, max_edges E numNodes)

/-- One assignment `incidence_1[row, col] = 1`. -/
def setOne (M : Nat → Nat → Nat) (row col : Nat) : Nat → Nat → Nat :=
  fun i j => if i = row ∧ j = col then 1 else M i j

/-- The inner loop `for row in neighibourhood: incidence_1[row, col] = 1`. -/
def writeCol (M : Nat → Nat → Nat) (col : Nat) (nb : List Nat) : Nat → Nat → Nat :=
  nb.foldl (fun acc row => setOne acc row col) M

/-- The outer loop `for col, neighibourhood in enumerate(hyperedges)`, with
`col` the index of the next column to write. -/
def fillCols (M : Nat → Nat → Nat) (col : Nat) : List (List Nat) → (Nat → Nat → Nat)
  | [] => M
  | nb :: rest => fillCols (writeCol M col nb) (col + 1) rest

/-- `incidence_1` after the two write loops, starting from the zero matrix. -/
def incidence_1 (hes : List (List Nat)) : Nat → Nat → Nat :=
  fillCols (fun _ _ => 0) 0 hes

/-- `incidence_1.sum(0)[c]`: the sum of column `c` over the `numRows` rows. -/
def colSum (M : Nat → Nat → Nat) (numRows c : Nat) : Nat :=
  ((List.range numRows).map (fun r => M r c)).sum

/-- `incidence_1.sum(1)[r]`: the sum of row `r` over the `numCols` columns. -/
def rowSum (M : Nat → Nat → Nat) (numCols r : Nat) : Nat :=
  ((List.range numCols).map (fun c => M r c)).sum

/-- The incidence-construction cell with its two assertions:
`assert all(incidence_1.sum(0) > 0)` then `assert all(incidence_1.sum(1) > 0)`;
`none` models the `AssertionError` (no sparse matrix is produced). -/
def incidenceChecked (numNodes : Nat) (E : List (Nat × Nat)) :
    Option (Nat → Nat → Nat) :=
  let hes := hyperedges E numNodes
  let M := incidence_1 hes
  if (List.range hes.length).all (fun c => decide (0 < colSum M numNodes c)) then
    if (List.range numNodes).all (fun r => decide (0 < rowSum M hes.length r)) then
      some M
    else none
  else none

/-- First-occurrence deduplication of a list relative to an already-seen set:
the pure core of the `unique_hyperedges` loop, after the per-element sort has
been applied. -/
def firstDedup {α : Type} [DecidableEq α] : List α → List α → List α
  | _, [] => []
  | seen, x :: xs =>
    if x ∈ seen then firstDedup seen xs else x :: firstDedup (x :: seen) xs

/-- Nodes whose sorted neighborhood differs from that of every lower-indexed
node: the first-occurrence representatives, in increasing node order. -/
def firstOccNodes (E : List (Nat × Nat)) (numNodes : Nat) : List Nat :=
  (List.range numNodes).filter
    (fun n => decide (∀ m, m < n → sortNat (neighbors E m) ≠ sortNat (neighbors E n)))

/-- Lexicographic comparison of edges, used when coalescing an edge list. -/
def edgeLE (p q : Nat × Nat) : Prop :=
  p.1 < q.1 ∨ (p.1 = q.1 ∧ p.2 ≤ q.2)

instance : DecidableRel edgeLE := fun p q =>
  inferInstanceAs (Decidable (p.1 < q.1 ∨ (p.1 = q.1 ∧ p.2 ≤ q.2)))

/-- Modelled from the library call `torch_geometric.utils.to_undirected`
(external to this repository): append the reversed edges and coalesce, i.e.
sort the pairs lexicographically and drop duplicate pairs. -/
def toUndirected (E : List (Nat × Nat)) : List (Nat × Nat) :=
  (List.insertionSort edgeLE (E ++ E.map (fun p => (p.2, p.1)))).dedup

/-- The lifting cell as written: it rebinds the local
`edge_index = to_undirected(edge_index)`, but the neighborhood loop reads
`data.edge_index`, so the rebound local is never consulted. -/
def liftedHyperedges (dataEdgeIndex : List (Nat × Nat)) (numNodes : Nat) :
    List (List Nat) :=
  let edge_index := toUndirected dataEdgeIndex
  hyperedges dataEdgeIndex numNodes

/-- The directed 5-cycle 0→1→2→3→4→0: the edges 0-1, 1-2, 2-3, 3-4, 4-0 of the
spec's ring-graph scenario, each written once. -/
def ring_edges : List (Nat × Nat) :=
  [(0, 1), (1, 2), (2, 3), (3, 4), (4, 0)]

/-- `num_epochs = 5`, the value set in both notebooks. -/
def num_epochs : Nat := 5

/-- `test_interval = 5`, the value set in both notebooks. -/
def test_interval : Nat := 5

/-- The epoch counters of the UniSAGE training loop:
`for epoch_i in range(1, num_epochs + 1)`. -/
def epochsLoop1 (numEpochs : Nat) : List Nat :=
  List.range' 1 numEpochs

/-- The epoch counters of the UniGCNII training loop:
`for epoch in range(num_epochs)`. -/
def epochsLoop2 (numEpochs : Nat) : List Nat :=
  List.range numEpochs

/-- Epoch counters at which the UniSAGE loop runs its evaluation block:
`if epoch_i % test_interval == 0`. -/
def reportEpochs1 (numEpochs testInterval : Nat) : List Nat :=
  (epochsLoop1 numEpochs).filter (fun e => e % testInterval == 0)

/-- Epoch counters at which the UniGCNII loop runs its evaluation block:
`if epoch % test_interval == 0`. -/
def reportEpochs2 (numEpochs testInterval : Nat) : List Nat :=
  (epochsLoop2 numEpochs).filter (fun e => e % testInterval == 0)

/-- One-based loop iterations at which the UniGCNII loop evaluates: iteration
`i` of that loop processes epoch counter `i - 1`. -/
def reportIters2 (numEpochs testInterval : Nat) : List Nat :=
  (reportEpochs2 numEpochs testInterval).map (fun e => e + 1)

/-- One-based loop iterations at which the UniSAGE loop evaluates: iteration
`i` of that loop processes epoch counter `i`. -/
def reportIters1 (numEpochs testInterval : Nat) : List Nat :=
  reportEpochs1 numEpochs testInterval

end HypergraphLift


namespace HypergraphLift

theorem writeCol_apply (nb : List Nat) (M : Nat → Nat → Nat) (col r c : Nat) :
    writeCol M col nb r c = if c = col ∧ r ∈ nb then 1 else M r c := by
  induction nb generalizing M with
  | nil => simp [writeCol]
  | cons x xs ih =>
    have hstep : writeCol M col (x :: xs) = writeCol (setOne M x col) col xs := rfl
    rw [hstep, ih, setOne]
    by_cases hc : c = col <;> by_cases hr : r = x <;> by_cases hx : r ∈ xs <;>
      simp [hc, hr, hx, List.mem_cons]

theorem fillCols_apply (l : List (List Nat)) (M : Nat → Nat → Nat) (col r c : Nat) :
    fillCols M col l r c =
      if col ≤ c ∧ r ∈ l.getD (c - col) [] then 1 else M r c := by
  induction l generalizing M col with
  | nil => simp [fillCols]
  | cons nb rest ih =>
    have hstep : fillCols M col (nb :: rest) = fillCols (writeCol M col nb) (col + 1) rest := rfl
    rw [hstep, ih, writeCol_apply]
    rcases Nat.lt_trichotomy c col with h | h | h
    · have h1 : ¬ (col + 1 ≤ c) := by omega
      have h2 : ¬ (col ≤ c) := by omega
      have h3 : ¬ (c = col) := by omega
      simp [h1, h2, h3]
    · subst h
      have h1 : ¬ (c + 1 ≤ c) := by omega
      simp [h1, Nat.sub_self]
    · have h1 : col + 1 ≤ c := h
      have h2 : col ≤ c := by omega
      have h3 : ¬ (c = col) := by omega
      have h4 : c - col = (c - (col + 1)) + 1 := by omega
      simp [h1, h2, h3, h4]

theorem incidence_entry (hes : List (List Nat)) (r c : Nat) :
    incidence_1 hes r c = if r ∈ hes.getD c [] then 1 else 0 := by
  have h := fillCols_apply hes (fun _ _ => 0) 0 r c
  simpa using h

theorem mem_firstDedup {α : Type} [DecidableEq α] (l : List α) :
    ∀ (seen : List α) (x : α), x ∈ firstDedup seen l ↔ x ∈ l ∧ x ∉ seen := by
  induction l with
  | nil => intro seen x; simp [firstDedup]
  | cons y ys ih =>
    intro seen x
    by_cases hy : y ∈ seen
    · rw [show firstDedup seen (y :: ys) = firstDedup seen ys from by
        simp [firstDedup, hy]]
      rw [ih seen x]
      constructor
      · rintro ⟨hmem, hns⟩; exact ⟨List.mem_cons_of_mem _ hmem, hns⟩
      · rintro ⟨hmem, hns⟩
        rcases List.mem_cons.mp hmem with hxy | hmem
        · exact absurd (hxy ▸ hy) hns
        · exact ⟨hmem, hns⟩
    · rw [show firstDedup seen (y :: ys) = y :: firstDedup (y :: seen) ys from by
        simp [firstDedup, hy]]
      rw [List.mem_cons, ih (y :: seen) x]
      constructor
      · rintro (hxy | ⟨hmem, hns⟩)
        · exact ⟨hxy ▸ List.mem_cons_self y ys, hxy ▸ hy⟩
        · exact ⟨List.mem_cons_of_mem _ hmem, fun hx => hns (List.mem_cons_of_mem _ hx)⟩
      · rintro ⟨hmem, hns⟩
        by_cases hxy : x = y
        · exact Or.inl hxy
        · rcases List.mem_cons.mp hmem with h | h
          · exact absurd h hxy
          · exact Or.inr ⟨h, by simp [List.mem_cons, hxy, hns]⟩

theorem nodup_firstDedup {α : Type} [DecidableEq α] (l : List α) :
    ∀ seen : List α, (firstDedup seen l).Nodup := by
  induction l with
  | nil => intro seen; simp [firstDedup]
  | cons y ys ih =>
    intro seen
    by_cases hy : y ∈ seen
    · rw [show firstDedup seen (y :: ys) = firstDedup seen ys from by
        simp [firstDedup, hy]]
      exact ih seen
    · rw [show firstDedup seen (y :: ys) = y :: firstDedup (y :: seen) ys from by
        simp [firstDedup, hy]]
      refine List.nodup_cons.mpr ⟨fun hmem => ?_, ih (y :: seen)⟩
      exact ((mem_firstDedup ys (y :: seen) y).mp hmem).2 (List.mem_cons_self y seen)

theorem length_eq_dedup_of_nodup_toFinset {α : Type} [DecidableEq α]
    {l₁ l₂ : List α} (h₁ : l₁.Nodup) (hfin : l₁.toFinset = l₂.toFinset) :
    l₁.length = l₂.dedup.length := by
  calc l₁.length = l₁.dedup.length := by rw [h₁.dedup]
    _ = l₁.toFinset.card := (List.card_toFinset _).symm
    _ = l₂.toFinset.card := by rw [hfin]
    _ = l₂.dedup.length := List.card_toFinset _

theorem length_firstDedup {α : Type} [DecidableEq α] (l : List α) :
    (firstDedup [] l).length = l.dedup.length := by
  refine length_eq_dedup_of_nodup_toFinset (nodup_firstDedup l []) ?_
  ext x
  simp [mem_firstDedup]

theorem dedupHyperedges_eq (l : List (List Nat)) :
    ∀ seen : List (List Nat), dedupHyperedges seen l = firstDedup seen (l.map sortNat) := by
  induction l with
  | nil => intro seen; rfl
  | cons nb rest ih =>
    intro seen
    show (if sortNat nb ∈ seen then dedupHyperedges seen rest
      else sortNat nb :: dedupHyperedges (sortNat nb :: seen) rest) = _
    by_cases h : sortNat nb ∈ seen <;> simp [firstDedup, h, ih]

theorem hyperedges_eq (E : List (Nat × Nat)) (N : Nat) :
    hyperedges E N =
      firstDedup [] ((List.range N).map (fun n => sortNat (neighbors E n))) := by
  rw [hyperedges, dedupHyperedges_eq, one_hop_neighborhoods, List.map_map]
  rfl

theorem mem_hyperedges (E : List (Nat × Nat)) (N : Nat) (he : List Nat) :
    he ∈ hyperedges E N ↔ ∃ n, n < N ∧ he = sortNat (neighbors E n) := by
  rw [hyperedges_eq, mem_firstDedup]
  simp only [List.mem_map, List.mem_range, List.not_mem_nil, not_false_iff, and_true]
  constructor
  · rintro ⟨n, hn, hne⟩; exact ⟨n, hn, hne.symm⟩
  · rintro ⟨n, hn, hne⟩; exact ⟨n, hn, hne.symm⟩

theorem mem_sortNat (l : List Nat) (x : Nat) : x ∈ sortNat l ↔ x ∈ l :=
  (List.perm_insertionSort (· ≤ ·) l).mem_iff

end HypergraphLift

namespace HypergraphLift

theorem sum_map_ite {p : Nat → Prop} [DecidablePred p] (l : List Nat) :
    (l.map (fun x => if p x then (1 : Nat) else 0)).sum =
      l.countP (fun x => decide (p x)) := by
  induction l with
  | nil => rfl
  | cons x xs ih =>
    rw [List.map_cons, List.sum_cons, List.countP_cons, ih]
    by_cases h : p x <;> simp [h, Nat.add_comm]

theorem colSum_incidence (hes : List (List Nat)) (N c : Nat) :
    colSum (incidence_1 hes) N c =
      (List.range N).countP (fun r => decide (r ∈ hes.getD c [])) := by
  unfold colSum
  rw [List.map_congr_left (fun r _ => incidence_entry hes r c)]
  exact sum_map_ite (List.range N)

theorem rowSum_incidence (hes : List (List Nat)) (numCols r : Nat) :
    rowSum (incidence_1 hes) numCols r =
      (List.range numCols).countP (fun c => decide (r ∈ hes.getD c [])) := by
  unfold rowSum
  rw [List.map_congr_left (fun c _ => incidence_entry hes r c)]
  exact sum_map_ite (List.range numCols)

theorem countP_range_mem (he : List Nat) (N : Nat) (h : ∀ x ∈ he, x < N) :
    (List.range N).countP (fun r => decide (r ∈ he)) = he.dedup.length := by
  rw [List.countP_eq_length_filter]
  refine length_eq_dedup_of_nodup_toFinset ((List.nodup_range N).filter _) ?_
  ext x
  simp only [List.mem_toFinset, List.mem_filter, List.mem_range, decide_eq_true_eq]
  exact ⟨fun hx => hx.2, fun hx => ⟨h x hx, hx⟩⟩

theorem mem_neighbors (E : List (Nat × Nat)) (n x : Nat) :
    x ∈ neighbors E n ↔ ∃ p ∈ E, p.1 = n ∧ p.2 = x := by
  unfold neighbors
  simp only [List.mem_map, List.mem_filter, beq_iff_eq]
  constructor
  · rintro ⟨p, ⟨hp, hp1⟩, hp2⟩; exact ⟨p, hp, hp1, hp2⟩
  · rintro ⟨p, hp, hp1, hp2⟩; exact ⟨p, ⟨hp, hp1⟩, hp2⟩

theorem hyperedge_mem_lt {E : List (Nat × Nat)} {N : Nat}
    (hE : ∀ p ∈ E, p.2 < N) {he : List Nat} (hhe : he ∈ hyperedges E N)
    {x : Nat} (hx : x ∈ he) : x < N := by
  obtain ⟨n, _, rfl⟩ := (mem_hyperedges E N he).mp hhe
  obtain ⟨p, hp, _, hp2⟩ := (mem_neighbors E n x).mp ((mem_sortNat _ x).mp hx)
  exact hp2 ▸ hE p hp

theorem getD_mem_hyperedges {E : List (Nat × Nat)} {N c : Nat}
    (hc : c < (hyperedges E N).length) :
    (hyperedges E N).getD c [] ∈ hyperedges E N := by
  rw [List.getD_eq_getElem _ _ hc]
  exact List.getElem_mem hc

theorem colSum_hyperedges {E : List (Nat × Nat)} {N : Nat}
    (hE : ∀ p ∈ E, p.2 < N) {c : Nat} (hc : c < (hyperedges E N).length) :
    colSum (incidence_1 (hyperedges E N)) N c =
      ((hyperedges E N).getD c []).dedup.length := by
  rw [colSum_incidence]
  exact countP_range_mem _ _ (fun x hx => hyperedge_mem_lt hE (getD_mem_hyperedges hc) hx)

end HypergraphLift

namespace HypergraphLift

theorem all_colSum_iff {E : List (Nat × Nat)} {N : Nat} (hE : ∀ p ∈ E, p.2 < N) :
    ((List.range (hyperedges E N).length).all
      (fun c => decide (0 < colSum (incidence_1 (hyperedges E N)) N c))) = true ↔
    ∀ he ∈ hyperedges E N, he ≠ [] := by
  rw [List.all_eq_true]
  simp only [List.mem_range, decide_eq_true_eq]
  constructor
  · intro h he hhe hnil
    obtain ⟨c, hc, hceq⟩ := List.mem_iff_getElem.mp hhe
    have hpos := h c hc
    rw [colSum_hyperedges hE hc, List.getD_eq_getElem _ _ hc, hceq, hnil] at hpos
    simp at hpos
  · intro h c hc
    rw [colSum_hyperedges hE hc]
    have hne : (hyperedges E N).getD c [] ≠ [] := h _ (getD_mem_hyperedges hc)
    have hdne : ((hyperedges E N).getD c []).dedup ≠ [] := by
      simpa [List.dedup_eq_nil] using hne
    exact List.length_pos.mpr hdne

theorem all_rowSum_iff {E : List (Nat × Nat)} {N : Nat} :
    ((List.range N).all
      (fun r => decide (0 < rowSum (incidence_1 (hyperedges E N)) (hyperedges E N).length r))) = true ↔
    ∀ r, r < N → ∃ he ∈ hyperedges E N, r ∈ he := by
  rw [List.all_eq_true]
  simp only [List.mem_range, decide_eq_true_eq]
  constructor <;> intro h r hr
  · have hpos := h r hr
    rw [rowSum_incidence, List.countP_pos_iff] at hpos
    obtain ⟨c, hc, hcP⟩ := hpos
    rw [List.mem_range] at hc
    simp only [decide_eq_true_eq] at hcP
    exact ⟨_, getD_mem_hyperedges hc, hcP⟩
  · obtain ⟨he, hhe, hrhe⟩ := h r hr
    rw [rowSum_incidence, List.countP_pos_iff]
    obtain ⟨c, hc, hceq⟩ := List.mem_iff_getElem.mp hhe
    refine ⟨c, List.mem_range.mpr hc, ?_⟩
    simp only [decide_eq_true_eq]
    rw [List.getD_eq_getElem _ _ hc, hceq]
    exact hrhe

theorem incidenceChecked_none_iff_conds (N : Nat) (E : List (Nat × Nat)) :
    incidenceChecked N E = none ↔
      ¬ (((List.range (hyperedges E N).length).all
            (fun c => decide (0 < colSum (incidence_1 (hyperedges E N)) N c))) = true ∧
          ((List.range N).all
            (fun r => decide (0 < rowSum (incidence_1 (hyperedges E N)) (hyperedges E N).length r))) = true) := by
  unfold incidenceChecked
  by_cases hA : ((List.range (hyperedges E N).length).all
      (fun c => decide (0 < colSum (incidence_1 (hyperedges E N)) N c))) = true
  · by_cases hB : ((List.range N).all
        (fun r => decide (0 < rowSum (incidence_1 (hyperedges E N)) (hyperedges E N).length r))) = true
    · simp [hA, hB]
    · simp [hA, hB]
  · simp [hA]

theorem incidenceChecked_none_char {E : List (Nat × Nat)} {N : Nat}
    (hE : ∀ p ∈ E, p.2 < N) :
    incidenceChecked N E = none ↔
      (∃ he ∈ hyperedges E N, he = []) ∨
      (∃ r, r < N ∧ ∀ he ∈ hyperedges E N, r ∉ he) := by
  rw [incidenceChecked_none_iff_conds, all_colSum_iff hE, all_rowSum_iff]
  constructor
  · intro h
    by_cases h1 : ∀ he ∈ hyperedges E N, he ≠ []
    · right
      have h2 : ¬ ∀ r, r < N → ∃ he ∈ hyperedges E N, r ∈ he := fun h2 => h ⟨h1, h2⟩
      push_neg at h2
      exact h2
    · left
      push_neg at h1
      obtain ⟨he, hhe, hne⟩ := h1
      exact ⟨he, hhe, hne⟩
  · rintro (⟨he, hhe, hnil⟩ | ⟨r, hr, hno⟩) ⟨h1, h2⟩
    · exact (h1 he hhe) hnil
    · obtain ⟨he, hhe, hrhe⟩ := h2 r hr
      exact hno he hhe hrhe

theorem incidenceChecked_some_sums {E : List (Nat × Nat)} {N : Nat}
    {M : Nat → Nat → Nat} (h : incidenceChecked N E = some M) :
    M = incidence_1 (hyperedges E N) ∧
    (∀ c, c < (hyperedges E N).length → 1 ≤ colSum M N c) ∧
    (∀ r, r < N → 1 ≤ rowSum M (hyperedges E N).length r) := by
  unfold incidenceChecked at h
  by_cases hA : ((List.range (hyperedges E N).length).all
      (fun c => decide (0 < colSum (incidence_1 (hyperedges E N)) N c))) = true
  · by_cases hB : ((List.range N).all
        (fun r => decide (0 < rowSum (incidence_1 (hyperedges E N)) (hyperedges E N).length r))) = true
    · rw [if_pos hA, if_pos hB, Option.some_inj] at h
      subst h
      rw [List.all_eq_true] at hA hB
      refine ⟨rfl, fun c hc => ?_, fun r hr => ?_⟩
      · have := hA c (List.mem_range.mpr hc)
        simpa using this
      · have := hB r (List.mem_range.mpr hr)
        simpa using this
    · rw [if_pos hA, if_neg hB] at h
      exact absurd h (by simp)
  · rw [if_neg hA] at h
    exact absurd h (by simp)

theorem dedupHyperedges_range' (E : List (Nat × Nat)) :
    ∀ (k a : Nat) (S : List (List Nat)),
      (∀ b, b ∈ S ↔ ∃ m, m < a ∧ sortNat (neighbors E m) = b) →
      dedupHyperedges S ((List.range' a k).map (fun n => neighbors E n)) =
        ((List.range' a k).filter
          (fun n => decide (∀ m, m < n → sortNat (neighbors E m) ≠ sortNat (neighbors E n)))).map
          (fun n => sortNat (neighbors E n)) := by
  intro k
  induction k with
  | zero => intro a S hS; rfl
  | succ k ih =>
    intro a S hS
    rw [List.range'_succ, List.map_cons, List.filter_cons]
    by_cases hmem : sortNat (neighbors E a) ∈ S
    · have hcond : (decide (∀ m, m < a → sortNat (neighbors E m) ≠ sortNat (neighbors E a))) = false := by
        simp only [decide_eq_false_iff_not]
        intro hall
        obtain ⟨m, hm, hmeq⟩ := (hS _).mp hmem
        exact hall m hm hmeq
      rw [show dedupHyperedges S (neighbors E a :: (List.range' (a + 1) k).map (fun n => neighbors E n)) =
            dedupHyperedges S ((List.range' (a + 1) k).map (fun n => neighbors E n)) from by
        simp [dedupHyperedges, hmem]]
      rw [hcond, if_neg (by simp)]
      refine ih (a + 1) S fun b => ?_
      rw [hS b]
      constructor
      · rintro ⟨m, hm, hbeq⟩; exact ⟨m, by omega, hbeq⟩
      · rintro ⟨m, hm, hbeq⟩
        by_cases hma : m = a
        · subst hma; exact (hS b).mp (hbeq ▸ hmem)
        · exact ⟨m, by omega, hbeq⟩
    · have hcond : (decide (∀ m, m < a → sortNat (neighbors E m) ≠ sortNat (neighbors E a))) = true := by
        simp only [decide_eq_true_eq]
        intro m hm hmeq
        exact hmem ((hS _).mpr ⟨m, hm, hmeq⟩)
      rw [show dedupHyperedges S (neighbors E a :: (List.range' (a + 1) k).map (fun n => neighbors E n)) =
            sortNat (neighbors E a) ::
              dedupHyperedges (sortNat (neighbors E a) :: S)
                ((List.range' (a + 1) k).map (fun n => neighbors E n)) from by
        simp [dedupHyperedges, hmem]]
      rw [hcond, if_pos (by simp), List.map_cons]
      congr 1
      refine ih (a + 1) (sortNat (neighbors E a) :: S) fun b => ?_
      rw [List.mem_cons, hS b]
      constructor
      · rintro (hba | ⟨m, hm, hbeq⟩)
        · exact ⟨a, by omega, hba.symm⟩
        · exact ⟨m, by omega, hbeq⟩
      · rintro ⟨m, hm, hbeq⟩
        by_cases hma : m = a
        · subst hma; exact Or.inl hbeq.symm
        · exact Or.inr ⟨m, by omega, hbeq⟩

theorem hyperedges_firstOcc (E : List (Nat × Nat)) (N : Nat) :
    hyperedges E N = (firstOccNodes E N).map (fun n => sortNat (neighbors E n)) := by
  rw [hyperedges, one_hop_neighborhoods, firstOccNodes, List.range_eq_range']
  exact dedupHyperedges_range' E N 0 [] (by simp)

end HypergraphLift

namespace HypergraphLift

/-- C1: for every edge list over `N` nodes, the incidence matrix has shape
`N × (number of distinct sorted one-hop neighborhoods)`, and its entry at
`(row, col)` is `1` when node `row` belongs to hyperedge `col` and `0`
otherwise. -/
theorem C1_incidence_shape_entries (E : List (Nat × Nat)) (N : Nat) :
    incidenceShape N E =
      (N, (((List.range N).map (fun n => sortNat (neighbors E n))).dedup).length) ∧
    ∀ r c, incidence_1 (hyperedges E N) r c =
      if r ∈ (hyperedges E N).getD c [] then 1 else 0 := by
  refine ⟨?_, fun r c => incidence_entry _ r c⟩
  unfold incidenceShape max_edges
  rw [hyperedges_eq, length_firstDedup]

/-- C2: for every edge list, the hyperedge list contains no two equal entries,
and its length equals the number of distinct sorted one-hop neighborhoods
observed over the nodes. -/
theorem C2_hyperedges_nodup_length (E : List (Nat × Nat)) (N : Nat) :
    (hyperedges E N).Nodup ∧
    (hyperedges E N).length =
      (((List.range N).map (fun n => sortNat (neighbors E n))).dedup).length := by
  rw [hyperedges_eq]
  exact ⟨nodup_firstDedup _ [], length_firstDedup _⟩

/-- C3: for an edge list whose targets lie below `N`, the incidence
construction fails (no matrix is produced) exactly when some hyperedge is
empty or some node lies in no hyperedge; on success every column sum and
every row sum is at least 1. -/
theorem C3_assertion_characterization (E : List (Nat × Nat)) (N : Nat)
    (hE : ∀ p ∈ E, p.2 < N) :
    (incidenceChecked N E = none ↔
      (∃ he ∈ hyperedges E N, he = []) ∨
      (∃ r, r < N ∧ ∀ he ∈ hyperedges E N, r ∉ he)) ∧
    ∀ M, incidenceChecked N E = some M →
      (∀ c, c < (hyperedges E N).length → 1 ≤ colSum M N c) ∧
      (∀ r, r < N → 1 ≤ rowSum M (hyperedges E N).length r) :=
  ⟨incidenceChecked_none_char hE, fun _ h =>
    ⟨(incidenceChecked_some_sums h).2.1, (incidenceChecked_some_sums h).2.2⟩⟩

theorem C3_witness : incidenceChecked 2 [(0, 1), (1, 0)] ≠ none := by
  intro hnone
  have hhes : hyperedges [(0, 1), (1, 0)] 2 = [[1], [0]] := by decide
  have h := (C3_assertion_characterization [(0, 1), (1, 0)] 2 (by decide)).1.mp hnone
  rw [hhes] at h
  rcases h with ⟨he, hhe, hnil⟩ | ⟨r, hr, hno⟩
  · subst hnil; simp at hhe
  · interval_cases r
    · exact hno [0] (by simp) (by simp)
    · exact hno [1] (by simp) (by simp)

/-- C4 as stated is false: with the parallel-edge list `[(0,1),(0,1)]` the one
hyperedge produced is the tuple `(1, 1)`, in which the neighbor `1` occurs
twice, so a hyperedge is not a per-node deduplicated neighbor set. -/
theorem C4_counterexample :
    hyperedges [(0, 1), (0, 1)] 1 = [[1, 1]] ∧ ¬ ([1, 1] : List Nat).Nodup :=
  ⟨by decide, by decide⟩

/-- C4 amended: each hyperedge is the ascending sort of some node's neighbor
list taken with multiplicity (a neighbor repeats once per parallel edge),
every node's sorted neighbor list occurs, only one copy of each distinct
sorted tuple is kept across nodes, and the sort is an ascending permutation
of the collected neighbor list. -/
theorem C4_amended_sorted_with_multiplicity (E : List (Nat × Nat)) (N : Nat) :
    (∀ n, n < N → sortNat (neighbors E n) ∈ hyperedges E N) ∧
    (∀ he, he ∈ hyperedges E N → ∃ n, n < N ∧ he = sortNat (neighbors E n)) ∧
    (hyperedges E N).Nodup ∧
    (∀ l : List Nat, (sortNat l).Sorted (· ≤ ·) ∧ (sortNat l).Perm l) := by
  refine ⟨fun n hn => (mem_hyperedges E N _).mpr ⟨n, hn, rfl⟩,
    fun he hhe => (mem_hyperedges E N he).mp hhe, ?_,
    fun l => ⟨List.sorted_insertionSort _ l, List.perm_insertionSort _ l⟩⟩
  rw [hyperedges_eq]
  exact nodup_firstDedup _ []

theorem C4_witness :
    sortNat (neighbors [(0, 1), (0, 1)] 0) ∈ hyperedges [(0, 1), (0, 1)] 1 :=
  (C4_amended_sorted_with_multiplicity [(0, 1), (0, 1)] 1).1 0 (by decide)

/-- C5: lifting the 5-node ring graph made undirected yields exactly the five
two-element neighbor sets as hyperedges, and the resulting incidence matrix
has every row sum and every column sum at least 1. -/
theorem C5_ring_scenario :
    hyperedges (toUndirected ring_edges) 5 =
      [[1, 4], [0, 2], [1, 3], [2, 4], [0, 3]] ∧
    (hyperedges (toUndirected ring_edges) 5).length = 5 ∧
    ((List.range 5).all fun c =>
      decide (1 ≤ colSum (incidence_1 (hyperedges (toUndirected ring_edges) 5)) 5 c)) = true ∧
    ((List.range 5).all fun r =>
      decide (1 ≤ rowSum (incidence_1 (hyperedges (toUndirected ring_edges) 5)) 5 r)) = true :=
  ⟨by decide, by decide, by decide, by decide⟩

/-- C6: hyperedge construction and incidence construction are deterministic —
running them on equal inputs produces equal hyperedge lists and pointwise
equal incidence matrices. -/
theorem C6_deterministic (E₁ E₂ : List (Nat × Nat)) (N₁ N₂ : Nat)
    (hE : E₁ = E₂) (hN : N₁ = N₂) :
    hyperedges E₁ N₁ = hyperedges E₂ N₂ ∧
    ∀ r c, incidence_1 (hyperedges E₁ N₁) r c = incidence_1 (hyperedges E₂ N₂) r c := by
  subst hE; subst hN
  exact ⟨rfl, fun _ _ => rfl⟩

theorem C6_witness : hyperedges ring_edges 5 = hyperedges ring_edges 5 :=
  (C6_deterministic ring_edges ring_edges 5 5 rfl rfl).1

/-- C7 as stated is false for the UniGCNII notebook: its loop counter runs
0..4, so with `num_epochs = test_interval = 5` the evaluation block runs at
the first loop iteration (epoch counter 0), not at the fifth, while the
claim's schedule of evaluating every fifth iteration would be `[5]`. -/
theorem C7_counterexample :
    (epochsLoop2 num_epochs).length = 5 ∧
    reportIters2 num_epochs test_interval = [1] ∧
    reportIters2 num_epochs test_interval ≠ [5] :=
  ⟨by decide, by decide, by decide⟩

/-- C7 amended: both loops run exactly 5 epochs, and each evaluates exactly
when its epoch counter is divisible by the test interval 5 — at the fifth
iteration (counter 5) in the UniSAGE loop, which counts 1..5, but at the
first iteration (counter 0) in the UniGCNII loop, which counts 0..4. -/
theorem C7_amended_schedule :
    num_epochs = 5 ∧ test_interval = 5 ∧
    (epochsLoop1 num_epochs).length = 5 ∧
    (epochsLoop2 num_epochs).length = 5 ∧
    reportEpochs1 num_epochs test_interval = [5] ∧
    reportEpochs2 num_epochs test_interval = [0] :=
  ⟨rfl, rfl, by decide, by decide, by decide, by decide⟩

/-- C8: the lifting cell computes the hyperedges from the original dataset
edge list; the locally rebound undirected edge list is never consulted even
though consulting it would change the result — on the directed ring the
undirected list yields different hyperedges. -/
theorem C8_uses_original_edge_list (E : List (Nat × Nat)) (N : Nat) :
    liftedHyperedges E N = hyperedges E N ∧
    hyperedges (toUndirected ring_edges) 5 ≠ hyperedges ring_edges 5 :=
  ⟨rfl, by decide⟩

/-- C9: the hyperedge list preserves first-occurrence order — it is exactly
the list of sorted neighborhoods of those nodes whose sorted neighborhood
differs from that of every lower-indexed node, in increasing node order, so
column `j` of the incidence matrix corresponds to the `j`-th such
neighborhood. -/
theorem C9_first_occurrence_order (E : List (Nat × Nat)) (N : Nat) :
    hyperedges E N = (firstOccNodes E N).map (fun n => sortNat (neighbors E n)) :=
  hyperedges_firstOcc E N

/-- C10: every incidence entry is 0 or 1 for every edge list over `N` nodes,
and each column sum equals the number of distinct nodes of that hyperedge —
repeated membership writes are idempotent, so a node repeated in a hyperedge
tuple is counted once. -/
theorem C10_entries_binary_colsum (E : List (Nat × Nat)) (N : Nat)
    (hE : ∀ p ∈ E, p.2 < N) :
    (∀ r c, incidence_1 (hyperedges E N) r c = 0 ∨
      incidence_1 (hyperedges E N) r c = 1) ∧
    ∀ c, c < (hyperedges E N).length →
      colSum (incidence_1 (hyperedges E N)) N c =
        ((hyperedges E N).getD c []).dedup.length := by
  refine ⟨fun r c => ?_, fun c hc => colSum_hyperedges hE hc⟩
  rw [incidence_entry]
  rcases Decidable.em (r ∈ (hyperedges E N).getD c []) with h | h
  · rw [if_pos h]; exact Or.inr rfl
  · rw [if_neg h]; exact Or.inl rfl

theorem C10_witness :
    colSum (incidence_1 (hyperedges [(0, 1), (0, 1)] 2)) 2 0 =
      ((hyperedges [(0, 1), (0, 1)] 2).getD 0 []).dedup.length :=
  (C10_entries_binary_colsum [(0, 1), (0, 1)] 2 (by decide)).2 0 (by decide)

end HypergraphLift
